import Mathlib

/-!
Verification development for the blog-wire repository.

The repository's core (topic deduplication, LLM-response parsing, the
publication pipeline) is shallowly embedded below.  Python strings are
modelled as `List Char` (ASCII fragment of Python's Unicode semantics),
floats produced by `difflib.SequenceMatcher.ratio` as exact rationals,
machine timestamps as `Nat`, and the SQLAlchemy-backed tables as Lean
lists threaded through the functions that mutate them.  External
collaborators (the OpenAI completion call, the image service, the trend
feed, the custom-topics file, `random.sample`) are oracle parameters.
-/

set_option maxRecDepth 8000

namespace BlogWire

/-! ## Python string primitives -/

/-- Python whitespace (`\s` in `re`, and the separator class of
`str.split()` / `str.strip()`), restricted to the ASCII characters. -/
def isPySpace (c : Char) : Bool :=
  c = ' ' || c = '\t' || c = '\n' || c = '\r' || c = '\x0b' || c = '\x0c'

/-- Python `str.strip()`: drop whitespace from both ends. -/
def pyStrip (s : List Char) : List Char :=
  ((s.dropWhile isPySpace).reverse.dropWhile isPySpace).reverse

/-- `listStarts pat s` holds when `pat` is a prefix of `s`
(Python `s.startswith(pat)` at a given offset, after dropping). -/
def listStarts : List Char → List Char → Bool
  | [], _ => true
  | _ :: _, [] => false
  | p :: ps, c :: cs => p == c && listStarts ps cs

/-- Leftmost-match driver for the `re.search` models below: try the
match predicate `f` on every suffix of the text, left to right. -/
def scanFirst (f : List Char → Option (List Char)) : List Char → Option (List Char)
  | [] => f []
  | c :: cs =>
    match f (c :: cs) with
    | some r => some r
    | none => scanFirst f cs

/-- Worker for `splitWs`; `acc` holds the current word reversed. -/
def splitWsGo : List Char → List Char → List (List Char)
  | [], acc => if acc.isEmpty then [] else [acc.reverse]
  | c :: cs, acc =>
    if isPySpace c then
      if acc.isEmpty then splitWsGo cs [] else acc.reverse :: splitWsGo cs []
    else splitWsGo cs (c :: acc)

/-- Python `str.split()` with no argument: split on whitespace runs,
discarding empty tokens. -/
def splitWs (s : List Char) : List (List Char) := splitWsGo s []

/-- Python `str.lower()`, ASCII fragment. -/
def lowerL (s : List Char) : List Char := s.map Char.toLower

/-- Worker for `pyTitle`; the flag records whether the previous
character was alphabetic. -/
def pyTitleGo : Bool → List Char → List Char
  | _, [] => []
  | prev, c :: cs =>
    let c' := if c.isAlpha then (if prev then c.toLower else c.toUpper) else c
    c' :: pyTitleGo c.isAlpha cs

/-- Python `str.title()`, ASCII fragment: the first letter of every
alphabetic run is upper-cased, the rest lower-cased. -/
def pyTitle (s : List Char) : List Char := pyTitleGo false s

/-- Python `str.find` restricted to a successful hit: index of the first
occurrence of `pat` in `s`, or `none` (Python returns `-1`). -/
def pyFind (pat : List Char) : List Char → Option Nat
  | [] => if pat.isEmpty then some 0 else none
  | c :: cs =>
    if listStarts pat (c :: cs) then some 0
    else (pyFind pat cs).map (· + 1)

/-! ## The `difflib.SequenceMatcher` ratio

Modelled from the spec: the repository calls the external library
function `difflib.SequenceMatcher(None, a, b).ratio()`, described in the
spec as a Ratcliff/Obershelp-style character-sequence similarity,
`ratio = 2 × matching-characters / total-characters` in `[0,1]`.  The
embedding below computes the matching-character total the way the
library does (without its autojunk heuristic): repeatedly take the
longest common substring — ties resolved to the smallest start in `a`,
then in `b` — and recurse on the pieces to its left and to its right. -/

/-- Length of the longest common prefix of two character lists. -/
def commonPrefixLen : List Char → List Char → Nat
  | x :: xs, y :: ys => if x == y then commonPrefixLen xs ys + 1 else 0
  | _, _ => 0

/-- All triples `(i, j, k)` where `k` is the length of the longest
common substring of `a` and `b` starting at `a`-index `i` and
`b`-index `j`. -/
def lcsCandidates (a b : List Char) : List (Nat × Nat × Nat) :=
  (List.range a.length).flatMap fun i =>
    (List.range b.length).map fun j => (i, j, commonPrefixLen (a.drop i) (b.drop j))

/-- Longest matching block of `a` and `b`: maximal `k`, ties broken
toward the smallest `i`, then the smallest `j` (the block
`SequenceMatcher.find_longest_match` reports when there is no junk). -/
def findLongestMatch (a b : List Char) : Nat × Nat × Nat :=
  (lcsCandidates a b).foldl (fun best c => if best.2.2 < c.2.2 then c else best) (0, 0, 0)

/-- Fuelled Ratcliff/Obershelp matching-character total. -/
def matchingTotalF : Nat → List Char → List Char → Nat
  | 0, _, _ => 0
  | fuel + 1, a, b =>
    let m := findLongestMatch a b
    if m.2.2 = 0 then 0
    else
      matchingTotalF fuel (a.take m.1) (b.take m.2.1) + m.2.2 +
        matchingTotalF fuel (a.drop (m.1 + m.2.2)) (b.drop (m.2.1 + m.2.2))

/-- Total size of the matching blocks of `a` and `b`.  The fuel
`a.length + b.length` dominates the recursion depth, so the fuelled
computation never hits its cutoff. -/
def matchingTotal (a b : List Char) : Nat := matchingTotalF (a.length + b.length) a b

/-- `difflib.SequenceMatcher(None, a, b).ratio()` as an exact rational:
`2M / T` where `M` is the matching-character total and `T` the combined
length; the library returns `1.0` when both sequences are empty. -/
def ratioQ (a b : List Char) : ℚ :=
  if a.length + b.length = 0 then 1
  else (2 * (matchingTotal a b : ℚ)) / ((a.length : ℚ) + (b.length : ℚ))

/-! ## Data model (`models.py`) -/

/-- Lifecycle states of `TrendingTopic.status`. -/
inductive TopicStatus where
  | pending
  | in_progress
  | completed
  | skipped
deriving DecidableEq, Repr

/-- Lifecycle states of `BlogPost.status`. -/
inductive PostStatus where
  | draft
  | published
  | archived
deriving DecidableEq, Repr

/-- Row of the `trending_topics` table (the fields the core reads or
writes). -/
structure TrendingTopic where
  id : Nat
  keyword : List Char
  search_volume : Int
  trend_score : ℚ
  status : TopicStatus
  processed_at : Option Nat
deriving DecidableEq, Repr

/-- Row of the `blog_posts` table (the fields the core reads or
writes). -/
structure BlogPost where
  title : List Char
  slug : List Char
  content : List Char
  excerpt : List Char
  meta_description : List Char
  meta_keywords : List Char
  featured_image_url : Option (List Char)
  status : PostStatus
  published_at : Option Nat
  word_count : Nat
  topic_id : Option Nat
deriving DecidableEq, Repr

/-- Row of the `affiliate_links` table (the fields the injector
reads). -/
structure AffiliateLink where
  keyword : List Char
  url : List Char
  active : Bool
deriving DecidableEq, Repr

/-- A candidate produced by `TrendsService.get_trending_topics`: the
dictionaries `{'keyword', 'trend_score', 'search_volume'}`. -/
structure TopicData where
  keyword : List Char
  trend_score : ℚ
  search_volume : Int
deriving DecidableEq, Repr

/-- The dictionary assembled by `BlogGenerator._parse_blog_content`
(plus the `featured_image_url` key added by `generate_blog_post`). -/
structure BlogData where
  keyword : List Char
  title : List Char
  content : List Char
  meta_description : List Char
  meta_keywords : List Char
  excerpt : List Char
  word_count : Nat
  featured_image_url : Option (List Char)
deriving DecidableEq, Repr

/-! ## Duplicate filter (`services/blog_generator.py`) -/

/-- `BlogGenerator.is_similar_to_existing(title, threshold=0.75)`:
scan the stored posts in order and report the first one whose
lower-cased title has similarity ratio `≥ threshold` with the
lower-cased candidate. -/
def is_similar_to_existing (posts : List BlogPost) (title : List Char)
    (threshold : ℚ := 3 / 4) : Bool × Option BlogPost :=
  match posts with
  | [] => (false, none)
  | p :: ps =>
    if threshold ≤ ratioQ (lowerL title) (lowerL p.title) then (true, some p)
    else is_similar_to_existing ps title threshold

/-- The word-overlap score computed inside
`BlogGenerator.is_topic_covered`: `|topic words ∩ title words| /
|topic words|` over the whitespace-split word sets, or `0` when either
set is empty.  Both inputs are already lower-cased by the caller. -/
def word_overlap (topicLower titleLower : List Char) : ℚ :=
  let tw := (splitWs topicLower).dedup
  let yw := (splitWs titleLower).dedup
  if tw.isEmpty || yw.isEmpty then 0
  else ((tw.filter (· ∈ yw)).length : ℚ) / (tw.length : ℚ)

/-- `BlogGenerator.is_topic_covered(topic, threshold=0.70)`: a post
covers the topic when the lower-cased title-similarity ratio reaches
the threshold or the word overlap reaches `0.6`; the first covering
post is returned. -/
def is_topic_covered (posts : List BlogPost) (topic : List Char)
    (threshold : ℚ := 7 / 10) : Bool × Option BlogPost :=
  match posts with
  | [] => (false, none)
  | p :: ps =>
    if threshold ≤ ratioQ (lowerL topic) (lowerL p.title) ||
        (3 / 5 : ℚ) ≤ word_overlap (lowerL topic) (lowerL p.title) then
      (true, some p)
    else is_topic_covered ps topic threshold

/-! ## Structured-response parser (`BlogGenerator._parse_blog_content`)

Each `re.search` call of the parser is embedded as a function on the
suffix of the text that follows the searched literal, with the
backtracking of the greedy `\s*` against the lazy `(.+?)` resolved in
the definition; `scanFirst` supplies the leftmost-occurrence search. -/

/-- Group yielded by `LABEL:\s*(.+?)(?:\n|$)` (no DOTALL) at a fixed
occurrence, already stripped.  `t` is the text after the label.  The
lazy group runs from the end of the greedy whitespace prefix to the
next newline; when `t` is all whitespace the greedy `\s*` backtracks
to just before its last non-newline character, so the stripped group is
empty; the match fails only when every character of `t` is a newline
(in particular when `t` is empty). -/
def lineGroup (t : List Char) : Option (List Char) :=
  if t.all (fun c => c = '\n') then none
  else some (pyStrip ((t.dropWhile isPySpace).takeWhile (fun c => !(c = '\n'))))

/-- Match `lit` followed by `\s*(.+?)(?:\n|$)` at the head of `t`. -/
def matchLabelLine (lit : List Char) (t : List Char) : Option (List Char) :=
  if listStarts lit t then lineGroup (t.drop lit.length) else none

/-- `re.search(lit + r'\s*(.+?)(?:\n|$)', s)` followed by `.strip()`. -/
def searchLabelLine (lit s : List Char) : Option (List Char) :=
  scanFirst (matchLabelLine lit) s

/-- The parser's two-regex pattern for the single-line fields: try the
emphasized `**LABEL:**` form first, then the plain `LABEL:` form. -/
def extractField (litBold litPlain s : List Char) : Option (List Char) :=
  match searchLabelLine litBold s with
  | some g => some g
  | none => searchLabelLine litPlain s

/-- Positions of `t` (including `t.length`) where one of the terminator
literals `terms` starts. -/
def termPositions (terms : List (List Char)) (t : List Char) : List Nat :=
  (List.range (t.length + 1)).filter fun q => terms.any fun tm => listStarts tm (t.drop q)

/-- Group yielded by `LABEL + \s*(.+?)(?:T1|T2|T3)` with DOTALL at a
fixed occurrence, stripped.  With `qmax` the last terminator position,
the greedy `\s*` settles at `w = min (whitespace prefix) (qmax - 1)`
and the lazy group ends at the first terminator position `≥ w + 1`;
the match fails when no terminator starts after position `0`. -/
def sectionGroup (terms : List (List Char)) (t : List Char) : Option (List Char) :=
  let q := termPositions terms t
  match q.getLast? with
  | none => none
  | some qmax =>
    if qmax = 0 then none
    else
      let w := min ((t.takeWhile isPySpace).length) (qmax - 1)
      match (q.filter fun p => w + 1 ≤ p).head? with
      | some p => some (pyStrip ((t.drop w).take (p - w)))
      | none => none

/-- Match `lit` followed by `\s*(.+?)(?:…terminators…)` at the head
of `t`. -/
def matchSection (lit : List Char) (terms : List (List Char)) (t : List Char) :
    Option (List Char) :=
  if listStarts lit t then sectionGroup terms (t.drop lit.length) else none

/-- `re.search` of the excerpt-style pattern, stripped group. -/
def searchSection (lit : List Char) (terms : List (List Char)) (s : List Char) :
    Option (List Char) :=
  scanFirst (matchSection lit terms) s

/-- The parser's excerpt extraction:
`r'\*\*EXCERPT:\*\*\s*(.+?)(?:\n\n|---|\*\*CONTENT)'` and then the
plain form `r'EXCERPT:\s*(.+?)(?:\n\n|CONTENT:|---)'`. -/
def excerptField (s : List Char) : Option (List Char) :=
  match searchSection "**EXCERPT:**".toList ["\n\n".toList, "---".toList, "**CONTENT".toList] s with
  | some g => some g
  | none => searchSection "EXCERPT:".toList ["\n\n".toList, "CONTENT:".toList, "---".toList] s

/-- End positions admitted by `$` with DOTALL and no MULTILINE that lie
at `k` or later: the end of the string, or just before a final
newline.  Returns the smallest admissible position, assuming
`k ≤ t.length`. -/
def dollarEndFrom (t : List Char) (k : Nat) : Nat :=
  if t.getLast? = some '\n' && decide (k ≤ t.length - 1) then t.length - 1 else t.length

/-- Group of `CONTENT:\s*(.+?)$` (DOTALL) at a fixed occurrence,
stripped; `t` is the text after `CONTENT:`.  The match fails only when
`t` is empty; otherwise the greedy `\s*` settles at
`w = min (whitespace prefix) (t.length - 1)` and the lazy group ends
at the first `$` position after `w`. -/
def contentGroup (t : List Char) : Option (List Char) :=
  if t.length = 0 then none
  else
    let w := min ((t.takeWhile isPySpace).length) (t.length - 1)
    some (pyStrip ((t.drop w).take (dollarEndFrom t (w + 1) - w)))

/-- Strategy 1 of the parser's content extraction:
`re.search(r'CONTENT:\s*(.+?)$', content, re.DOTALL)`, stripped. -/
def contentLabelSearch (s : List Char) : Option (List Char) :=
  scanFirst (fun t => if listStarts "CONTENT:".toList t then contentGroup (t.drop 8) else none) s

/-- Group of `---\s*\n\n(.+?)$` (DOTALL) at a fixed occurrence of
`---`, stripped; `u` is the text after the dashes.  The greedy `\s*`
settles at the largest whitespace-prefix offset `w` where `\n\n`
follows and at least one more character remains; the lazy group runs
from `w + 2` to the first `$` position after it. -/
def dashGroup (u : List Char) : Option (List Char) :=
  let bigW := (u.takeWhile isPySpace).length
  let ws := (List.range (bigW + 1)).filter fun w =>
    listStarts "\n\n".toList (u.drop w) && decide (w + 3 ≤ u.length)
  match ws.getLast? with
  | none => none
  | some w => some (pyStrip ((u.drop (w + 2)).take (dollarEndFrom u (w + 3) - (w + 2))))

/-- Strategies 2 and 3 of the content extraction:
`re.search(r'---\s*\n\n(.+?)$', text, re.DOTALL)`, stripped. -/
def dashSearch (s : List Char) : Option (List Char) :=
  scanFirst (fun t => if listStarts "---".toList t then dashGroup (t.drop 3) else none) s

/-- The suffix of the text that follows the first occurrence of the
extracted excerpt: `content[content.find(excerpt) + len(excerpt):]`
(Python `find` yields `-1` when the excerpt does not occur). -/
def afterExcerpt (excerpt s : List Char) : List Char :=
  match pyFind excerpt s with
  | some i => s.drop (i + excerpt.length)
  | none => s.drop (excerpt.length - 1)

/-- The parser's content field: strategy 1 (`CONTENT:` label), else
strategy 2 (`---` separator), else — when an excerpt was extracted —
strategy 3 (the `---` separator search repeated on the text after the
excerpt), else empty. -/
def contentField (excerpt s : List Char) : List Char :=
  match contentLabelSearch s with
  | some g => g
  | none =>
    match dashSearch s with
    | some g => g
    | none =>
      if excerpt.isEmpty then []
      else
        match dashSearch (afterExcerpt excerpt s) with
        | some g => g
        | none => []

/-- The generic title fallback
`f"Everything You Need to Know About {keyword.title()}"`. -/
def fallbackTitle (keyword : List Char) : List Char :=
  "Everything You Need to Know About ".toList ++ pyTitle keyword

/-- `BlogGenerator._parse_blog_content(content, keyword)`: extract the
five labelled fields, compute the word count of the parsed content,
then apply the title, excerpt and meta-description fallbacks in that
order.  The `featured_image_url` key is added later by
`generate_blog_post`. -/
def parse_blog_content (s keyword : List Char) : BlogData :=
  let title0 := (extractField "**TITLE:**".toList "TITLE:".toList s).getD []
  let metaDesc0 := (extractField "**META_DESCRIPTION:**".toList "META_DESCRIPTION:".toList s).getD []
  let metaKw0 := (extractField "**META_KEYWORDS:**".toList "META_KEYWORDS:".toList s).getD []
  let excerpt0 := (excerptField s).getD []
  let content0 := contentField excerpt0 s
  let wc := (splitWs content0).length
  let title1 := if title0.isEmpty then fallbackTitle keyword else title0
  let excerpt1 := if excerpt0.isEmpty then content0.take 200 ++ "...".toList else excerpt0
  let metaDesc1 := if metaDesc0.isEmpty then excerpt1.take 160 else metaDesc0
  { keyword := keyword
    title := title1
    content := content0
    meta_description := metaDesc1
    meta_keywords := metaKw0
    excerpt := excerpt1
    word_count := wc
    featured_image_url := none }

/-! ## Slug derivation and persistence (`BlogGenerator`) -/

/-- Characters kept by `re.sub(r'[^a-z0-9\s-]', '', slug)`. -/
def isSlugKeep (c : Char) : Bool :=
  ('a' ≤ c && c ≤ 'z') || ('0' ≤ c && c ≤ '9') || isPySpace c || c = '-'

/-- Worker for `re.sub(r'[\s_]+', '-', s)`: the flag records whether
the previous character belonged to a whitespace/underscore run. -/
def collapseGo : Bool → List Char → List Char
  | _, [] => []
  | inRun, c :: cs =>
    if isPySpace c || c = '_' then
      if inRun then collapseGo true cs else '-' :: collapseGo true cs
    else c :: collapseGo false cs

/-- `re.sub(r'[\s_]+', '-', s)`: every maximal whitespace/underscore
run becomes a single hyphen. -/
def collapseRuns (s : List Char) : List Char := collapseGo false s

/-- Python `s.strip('-')`. -/
def stripDashes (s : List Char) : List Char :=
  ((s.dropWhile (· = '-')).reverse.dropWhile (· = '-')).reverse

/-- `BlogGenerator.create_slug(title)`: lower-case, strip characters
outside `[a-z0-9\s-]`, collapse whitespace/underscore runs to single
hyphens, trim hyphens from both ends. -/
def create_slug (title : List Char) : List Char :=
  stripDashes (collapseRuns ((title.map Char.toLower).filter isSlugKeep))

/-- `BlogGenerator.save_blog_post(blog_data, topic_id, status)` acting
on the `blog_posts` table.  `now` models the two `datetime.utcnow()`
reads.  A stored post with the freshly derived slug triggers the
timestamp suffix; the commit itself enforces the unique constraint on
the slug column, so a colliding final slug rolls back and yields
`none` (the function's `except` branch). -/
def save_blog_post (posts : List BlogPost) (bd : BlogData) (topic_id : Option Nat)
    (status : PostStatus) (now : Nat) : Option BlogPost × List BlogPost :=
  let slug0 := create_slug bd.title
  let slug :=
    if posts.any (fun p => p.slug = slug0) then slug0 ++ '-' :: (Nat.repr now).toList
    else slug0
  if posts.any (fun p => p.slug = slug) then (none, posts)
  else
    let post : BlogPost :=
      { title := bd.title
        slug := slug
        content := bd.content
        excerpt := bd.excerpt
        meta_description := bd.meta_description
        meta_keywords := bd.meta_keywords
        featured_image_url := bd.featured_image_url
        status := status
        published_at := if status = PostStatus.published then some now else none
        word_count := bd.word_count
        topic_id := topic_id }
    (some post, posts ++ [post])

/-! ## Trends service (`services/trends_service.py`) -/

/-- `TrendsService.save_trending_topics(topics)` acting on the
`trending_topics` table.  For each candidate the service looks up the
first stored row with the same keyword (`query.filter_by(...).first()`;
the session's autoflush makes rows added earlier in the same batch
visible) and skips the candidate when that row is pending or
in\_progress; otherwise a new pending row is appended.  `nextId`
models the primary-key sequence.  Returns the newly inserted rows, the
updated table and the next id. -/
def save_trending_topics (topics : List TrendingTopic) (nextId : Nat) :
    List TopicData → List TrendingTopic × List TrendingTopic × Nat
  | [] => ([], topics, nextId)
  | td :: rest =>
    let skip :=
      match topics.find? (fun t => t.keyword = td.keyword) with
      | some t => t.status = TopicStatus.pending || t.status = TopicStatus.in_progress
      | none => false
    if skip then save_trending_topics topics nextId rest
    else
      let newT : TrendingTopic :=
        { id := nextId
          keyword := td.keyword
          search_volume := td.search_volume
          trend_score := td.trend_score
          status := TopicStatus.pending
          processed_at := none }
      let r := save_trending_topics (topics ++ [newT]) (nextId + 1) rest
      (newT :: r.1, r.2.1, r.2.2)

/-- Maximum-score selection underlying `get_next_pending_topic`: the
first element of maximal `trend_score` (the row `first()` reports after
`order_by(trend_score.desc())`; ties carry no ordering guarantee and
resolve to the earlier row here). -/
def pickMaxScore : List TrendingTopic → Option TrendingTopic
  | [] => none
  | t :: ts =>
    match pickMaxScore ts with
    | none => some t
    | some b => if t.trend_score < b.trend_score then some b else some t

/-- `TrendsService.get_next_pending_topic()`: the pending topic with
the highest trend score, or `none`. -/
def get_next_pending_topic (topics : List TrendingTopic) : Option TrendingTopic :=
  pickMaxScore (topics.filter (fun t => t.status = TopicStatus.pending))

/-- `TrendsService.mark_topic_processed(topic_id, status)`: set the
status and stamp `processed_at` on the row with the given id (no-op
when the id is absent). -/
def mark_topic_processed (topics : List TrendingTopic) (topic_id : Nat)
    (status : TopicStatus) (now : Nat) : List TrendingTopic :=
  topics.map fun t =>
    if t.id = topic_id then { t with status := status, processed_at := some now } else t

/-- The pipeline's inline `topic.status = 'in_progress'; commit()`. -/
def mark_in_progress (topics : List TrendingTopic) (topic_id : Nat) : List TrendingTopic :=
  topics.map fun t =>
    if t.id = topic_id then { t with status := TopicStatus.in_progress } else t

/-! ## Affiliate link injection (`services/affiliate_service.py`) -/

/-- Python `\w` (regex word character), ASCII fragment. -/
def isWordChar (c : Char) : Bool := c.isAlphanum || c = '_'

/-- Whether the character at index `i` of `s` is a word character
(out-of-range counts as non-word, as at the ends of the subject). -/
def wordAt (s : List Char) (i : Nat) : Bool :=
  match (s.drop i).head? with
  | some c => isWordChar c
  | none => false

/-- `\b` of Python `re`: position `i` lies between a word character
and a non-word character (the edges of the subject are non-word). -/
def boundaryAt (s : List Char) (i : Nat) : Bool :=
  (if i = 0 then false else wordAt s (i - 1)) != wordAt s i

/-- Whether `re.compile(r'\b' + re.escape(kw) + r'\b', re.IGNORECASE)`
matches `s` at position `i`: the slice equals `kw` up to lower-casing
and both ends sit on word boundaries. -/
def kwMatchAt (kw s : List Char) (i : Nat) : Bool :=
  lowerL ((s.drop i).take kw.length) = lowerL kw &&
    boundaryAt s i && boundaryAt s (i + kw.length)

/-- Position of the first match of the keyword pattern in `s`
(`pattern.finditer(...)` head). -/
def kwFirstMatch (kw s : List Char) : Option Nat :=
  ((List.range (s.length + 1)).filter (kwMatchAt kw s)).head?

/-- Loop body of `AffiliateService.inject_affiliate_links`: walk the
active links, stopping once `max_links` injections were made; for each
link whose keyword matches, splice a markdown link over the first
match, preserving the matched text. -/
def injectGo (maxLinks : Nat) : List AffiliateLink → List Char → Nat → List Char × Nat
  | [], content, n => (content, n)
  | l :: ls, content, n =>
    if maxLinks ≤ n then (content, n)
    else
      match kwFirstMatch l.keyword content with
      | none => injectGo maxLinks ls content n
      | some i =>
        let matched := (content.drop i).take l.keyword.length
        let md := '[' :: matched ++ ']' :: '(' :: l.url ++ [')']
        injectGo maxLinks ls (content.take i ++ md ++ content.drop (i + l.keyword.length)) (n + 1)

/-- `AffiliateService.inject_affiliate_links(content, max_links=3)`:
with no active links the content is returned unchanged; otherwise the
injection loop runs over the active links. -/
def inject_affiliate_links (links : List AffiliateLink) (content : List Char)
    (maxLinks : Nat := 3) : List Char :=
  let active := links.filter (·.active)
  if active.isEmpty then content else (injectGo maxLinks active content 0).1

/-! ## Publication pipeline (`services/automation_service.py`) -/

/-- The persistent store threaded through a pipeline run: the three
tables plus the topic primary-key sequence. -/
structure DBState where
  topics : List TrendingTopic
  posts : List BlogPost
  links : List AffiliateLink
  nextId : Nat
deriving Repr

/-- Oracles for the run's external collaborators, indexed by the
attempt (or, in the fallback path, the position in the selected list):
the raw OpenAI completion text (`none` models an API error), the image
service's URL, the wall clock, the `custom_topics.txt` lines and the
`random.sample` shuffle. -/
structure RunEnv where
  llm : Nat → Option (List Char)
  img : Nat → Option (List Char)
  now : Nat → Nat
  fileTopics : List (List Char)
  shuffle : List (List Char) → List (List Char)

/-- `BlogGenerator.generate_blog_post` with its external calls
abstracted: an API error yields `none`; otherwise the raw text is
parsed and the featured-image URL attached. -/
def generate_blog_post (llmResult : Option (List Char)) (imgResult : Option (List Char))
    (keyword : List Char) : Option BlogData :=
  match llmResult with
  | none => none
  | some raw => some { parse_blog_content raw keyword with featured_image_url := imgResult }

/-- One iteration body plus loop of `run_daily_blog_generation`
(steps 3+): pick the next pending topic, skip covered topics, mark
in\_progress, generate, reject similar titles, inject affiliate links,
persist, and mark the topic's terminal outcome; stop when the
requested count is produced, the attempt budget is exhausted, or no
pending topic remains. -/
def runLoop (env : RunEnv) (count : Nat) (maxAttempts : Nat) (st : DBState)
    (posts : List BlogPost) (attempts : Nat) : List BlogPost × DBState × Nat :=
  if _h : posts.length < count ∧ attempts < maxAttempts then
    match get_next_pending_topic st.topics with
    | none => (posts, st, attempts + 1)
    | some topic =>
      if (is_topic_covered st.posts topic.keyword).1 then
        runLoop env count maxAttempts
          { st with topics :=
              mark_topic_processed st.topics topic.id TopicStatus.skipped (env.now attempts) }
          posts (attempts + 1)
      else
        match generate_blog_post (env.llm attempts) (env.img attempts) topic.keyword with
        | none =>
          runLoop env count maxAttempts
            { st with topics := mark_topic_processed (mark_in_progress st.topics topic.id) topic.id TopicStatus.skipped (env.now attempts) }
            posts (attempts + 1)
        | some bd =>
          if (is_similar_to_existing st.posts bd.title).1 then
            runLoop env count maxAttempts
              { st with topics := mark_topic_processed (mark_in_progress st.topics topic.id) topic.id TopicStatus.skipped (env.now attempts) }
              posts (attempts + 1)
          else
            match save_blog_post st.posts
                { bd with content := inject_affiliate_links st.links bd.content 3 }
                (some topic.id) PostStatus.published (env.now attempts) with
            | (some post, posts') =>
              runLoop env count maxAttempts
                { st with
                  posts := posts'
                  topics := mark_topic_processed (mark_in_progress st.topics topic.id) topic.id TopicStatus.completed (env.now attempts) }
                (posts ++ [post]) (attempts + 1)
            | (none, _) =>
              runLoop env count maxAttempts
                { st with topics := mark_topic_processed (mark_in_progress st.topics topic.id) topic.id TopicStatus.skipped (env.now attempts) }
                posts (attempts + 1)
  else (posts, st, attempts)
termination_by maxAttempts - attempts
decreasing_by all_goals omega

/-- `AutomationService.generate_single_blog(keyword)` (duplicate checks
on, as the fallback path calls it): coverage check, generation, title
check, link injection, persistence with status published. -/
def generate_single_blog (env : RunEnv) (idx : Nat) (st : DBState) (keyword : List Char) :
    Option BlogPost × DBState :=
  if (is_topic_covered st.posts keyword).1 then (none, st)
  else
    match generate_blog_post (env.llm idx) (env.img idx) keyword with
    | none => (none, st)
    | some bd =>
      if (is_similar_to_existing st.posts bd.title).1 then (none, st)
      else
        match save_blog_post st.posts
            { bd with content := inject_affiliate_links st.links bd.content 3 }
            none PostStatus.published (env.now idx) with
        | (some post, posts') => (some post, { st with posts := posts' })
        | (none, _) => (none, st)

/-- Loop of `AutomationService._generate_from_custom_topics` over the
sampled keywords, collecting the successfully generated posts. -/
def customLoop (env : RunEnv) (st : DBState) (idx : Nat) :
    List (List Char) → List BlogPost × DBState
  | [] => ([], st)
  | kw :: rest =>
    match generate_single_blog env idx st kw with
    | (some post, st') =>
      let r := customLoop env st' (idx + 1) rest
      (post :: r.1, r.2)
    | (none, st') => customLoop env st' (idx + 1) rest

/-- `AutomationService._generate_from_custom_topics(count)`: read the
custom-topics lines (empty when the file is missing or empty), select
`random.sample(topics, min(count, len(topics)))` — modelled as a take
from the oracle shuffle — and run the single-blog path over the
selection. -/
def generate_from_custom_topics (env : RunEnv) (count : Nat) (st : DBState) :
    List BlogPost × DBState :=
  if env.fileTopics.isEmpty then ([], st)
  else
    let selected := (env.shuffle env.fileTopics).take (min count env.fileTopics.length)
    customLoop env st 0 selected

/-- `AutomationService.run_daily_blog_generation(count)`: fetch the
candidate pool (`fetched`, the result of
`get_trending_topics(count * 3)`), fall back to the custom-topics file
when it is empty, otherwise save the pool and run the generation loop
with attempt budget `len(fetched)`. -/
def run_daily_blog_generation (env : RunEnv) (count : Nat) (fetched : List TopicData)
    (st : DBState) : List BlogPost × DBState :=
  if fetched.isEmpty then generate_from_custom_topics env count st
  else
    let s := save_trending_topics st.topics st.nextId fetched
    let r := runLoop env count fetched.length { st with topics := s.2.1, nextId := s.2.2 } [] 0
    (r.1, r.2.1)

/-! ## List infrastructure lemmas -/

lemma head?_dropWhile_not {p : Char → Bool} :
    ∀ {l : List Char} {c : Char}, (l.dropWhile p).head? = some c → p c = false := by
  intro l
  induction l with
  | nil => intro c h; simp [List.dropWhile] at h
  | cons x xs ih =>
    intro c h
    by_cases hx : p x
    · rw [List.dropWhile_cons_of_pos hx] at h
      exact ih h
    · rw [List.dropWhile_cons_of_neg hx] at h
      simp only [List.head?_cons, Option.some.injEq] at h
      subst h
      simpa using hx

lemma getLast?_dropWhile {p : Char → Bool} :
    ∀ {l : List Char}, l.dropWhile p ≠ [] → (l.dropWhile p).getLast? = l.getLast? := by
  intro l
  induction l with
  | nil => intro h; simp [List.dropWhile] at h
  | cons x xs ih =>
    intro h
    by_cases hx : p x
    · rw [List.dropWhile_cons_of_pos hx] at h ⊢
      rcases xs with _ | ⟨y, ys⟩
      · simp [List.dropWhile] at h
      · rw [ih h, List.getLast?_cons_cons]
    · rw [List.dropWhile_cons_of_neg hx]

/-! ## Slug lemmas (claim C7) -/

lemma mem_collapseGo :
    ∀ (b : Bool) (s : List Char) (c : Char), c ∈ collapseGo b s →
      c = '-' ∨ (c ∈ s ∧ (isPySpace c || c = '_') = false) := by
  intro b s
  induction s generalizing b with
  | nil => intro c h; simp [collapseGo] at h
  | cons x xs ih =>
    intro c h
    simp only [collapseGo] at h
    by_cases hx : (isPySpace x || x = '_') = true
    · rw [if_pos hx] at h
      by_cases hb : b
      · subst hb
        simp only [if_pos rfl] at h
        rcases ih true c h with h1 | h2
        · exact Or.inl h1
        · exact Or.inr ⟨List.mem_cons_of_mem _ h2.1, h2.2⟩
      · simp only [hb, if_neg] at h
        rcases List.mem_cons.mp h with h1 | h1
        · exact Or.inl h1
        · rcases ih true c h1 with h2 | h2
          · exact Or.inl h2
          · exact Or.inr ⟨List.mem_cons_of_mem _ h2.1, h2.2⟩
    · rw [if_neg hx] at h
      rcases List.mem_cons.mp h with h1 | h1
      · subst h1
        exact Or.inr ⟨List.mem_cons_self _ _, by simpa using hx⟩
      · rcases ih false c h1 with h2 | h2
        · exact Or.inl h2
        · exact Or.inr ⟨List.mem_cons_of_mem _ h2.1, h2.2⟩

lemma mem_stripDashes {l : List Char} {c : Char} (h : c ∈ stripDashes l) : c ∈ l := by
  unfold stripDashes at h
  rw [List.mem_reverse] at h
  have h1 := (List.dropWhile_sublist (l := (l.dropWhile (· = '-')).reverse) (· = '-')).mem h
  rw [List.mem_reverse] at h1
  exact (List.dropWhile_sublist (· = '-')).mem h1

lemma create_slug_chars {t : List Char} {c : Char} (h : c ∈ create_slug t) :
    ('a' ≤ c ∧ c ≤ 'z') ∨ ('0' ≤ c ∧ c ≤ '9') ∨ c = '-' := by
  unfold create_slug at h
  have h1 := mem_stripDashes h
  rcases mem_collapseGo false _ c h1 with h2 | ⟨h2, h3⟩
  · exact Or.inr (Or.inr h2)
  · have hk := List.of_mem_filter h2
    simp only [isSlugKeep, Bool.or_eq_true, decide_eq_true_eq, Bool.and_eq_true] at hk
    simp only [Bool.or_eq_false_iff] at h3
    rcases hk with ((hk | hk) | hk) | hk
    · exact Or.inl hk
    · exact Or.inr (Or.inl hk)
    · exact absurd h3.1 (by simp [hk])
    · exact Or.inr (Or.inr hk)

lemma stripDashes_getLast? {l : List Char} {c : Char}
    (h : (stripDashes l).getLast? = some c) : c ≠ '-' := by
  unfold stripDashes at h
  rw [List.getLast?_reverse] at h
  have := head?_dropWhile_not h
  simpa using this

lemma stripDashes_head? {l : List Char} {c : Char}
    (h : (stripDashes l).head? = some c) : c ≠ '-' := by
  unfold stripDashes at h
  rw [List.head?_reverse] at h
  have hne : (l.dropWhile (· = '-')).reverse.dropWhile (· = '-') ≠ [] := by
    intro hnil
    rw [hnil] at h
    simp at h
  rw [getLast?_dropWhile hne, List.getLast?_reverse] at h
  have := head?_dropWhile_not h
  simpa using this

/-- C7.  The slug derivation lower-cases the title, strips all
characters outside `[a-z0-9\s-]`, collapses whitespace/underscore runs
to single hyphens and trims hyphens at the ends: every character of a
slug is a lower-case letter, a digit or an inner hyphen, the ends are
never hyphens, and the title `3 Things Nobody Tells You About AI!`
yields exactly `3-things-nobody-tells-you-about-ai`. -/
theorem claim7_create_slug :
    create_slug "3 Things Nobody Tells You About AI!".toList
        = "3-things-nobody-tells-you-about-ai".toList ∧
      ∀ t : List Char,
        (∀ c ∈ create_slug t, ('a' ≤ c ∧ c ≤ 'z') ∨ ('0' ≤ c ∧ c ≤ '9') ∨ c = '-') ∧
          (create_slug t).head? ≠ some '-' ∧ (create_slug t).getLast? ≠ some '-' := by
  refine ⟨by decide, fun t => ⟨fun c hc => create_slug_chars hc, ?_, ?_⟩⟩
  · intro h
    exact stripDashes_head? h rfl
  · intro h
    exact stripDashes_getLast? h rfl

/-- Witness for C7 at a concrete title containing punctuation,
underscores and stray hyphens. -/
theorem claim7_create_slug_witness :
    create_slug "  Hi there AI!  ".toList = "hi-there-ai".toList ∧
      (create_slug "  Hi there AI!  ".toList).head? ≠ some '-' ∧
      (create_slug "  Hi there AI!  ".toList).getLast? ≠ some '-' :=
  ⟨by decide, (claim7_create_slug.2 _).2.1, (claim7_create_slug.2 _).2.2⟩

/-! ## Parsing round trip (claim C2) -/

/-- The synthetic response text of the parsing round-trip scenario,
with the four emphasized labels and the plain `CONTENT:` label. -/
def roundTripText : List Char :=
  ("**TITLE:** Foo\n\n**META_DESCRIPTION:** Bar\n\n**META_KEYWORDS:** a,b\n\n" ++
    "**EXCERPT:** Baz\n\nCONTENT:\nHello world.").toList

/-- The same scenario with every label in plain form. -/
def roundTripTextPlain : List Char :=
  ("TITLE: Foo\n\nMETA_DESCRIPTION: Bar\n\nMETA_KEYWORDS: a,b\n\n" ++
    "EXCERPT: Baz\n\nCONTENT:\nHello world.").toList

/-- C2.  Parsing the synthetic response yields title `Foo`, meta
description `Bar`, meta keywords `a,b`, excerpt `Baz`, content
`Hello world.` and word count 2, for any keyword; both the emphasized
`**LABEL:**` form and the plain `LABEL:` form are accepted. -/
theorem claim2_parse_round_trip :
    ∀ keyword : List Char,
      parse_blog_content roundTripText keyword =
        { keyword := keyword
          title := "Foo".toList
          content := "Hello world.".toList
          meta_description := "Bar".toList
          meta_keywords := "a,b".toList
          excerpt := "Baz".toList
          word_count := 2
          featured_image_url := none } ∧
      parse_blog_content roundTripTextPlain keyword =
        { keyword := keyword
          title := "Foo".toList
          content := "Hello world.".toList
          meta_description := "Bar".toList
          meta_keywords := "a,b".toList
          excerpt := "Baz".toList
          word_count := 2
          featured_image_url := none } :=
  fun _ => ⟨rfl, rfl⟩

/-! ## Similarity-ratio lemmas (claims C4, C5) -/

lemma commonPrefixLen_self : ∀ s : List Char, commonPrefixLen s s = s.length := by
  intro s
  induction s with
  | nil => rfl
  | cons x xs ih => simp [commonPrefixLen, ih]

lemma commonPrefixLen_le_left : ∀ x y : List Char, commonPrefixLen x y ≤ x.length := by
  intro x
  induction x with
  | nil => intro y; cases y <;> simp [commonPrefixLen]
  | cons a xs ih =>
    intro y
    cases y with
    | nil => simp [commonPrefixLen]
    | cons b ys =>
      simp only [commonPrefixLen, List.length_cons]
      split
      · exact Nat.succ_le_succ (ih ys)
      · omega

lemma lcsCandidates_k_le {a b : List Char} :
    ∀ c ∈ lcsCandidates a b, c.2.2 ≤ a.length := by
  intro c hc
  simp only [lcsCandidates, List.mem_flatMap, List.mem_map, List.mem_range] at hc
  obtain ⟨i, _, j, _, rfl⟩ := hc
  calc commonPrefixLen (a.drop i) (b.drop j) ≤ (a.drop i).length := commonPrefixLen_le_left _ _
    _ ≤ a.length := by simp [List.length_drop]

lemma foldl_best_keep :
    ∀ (l : List (Nat × Nat × Nat)) (best : Nat × Nat × Nat),
      (∀ c ∈ l, c.2.2 ≤ best.2.2) →
      l.foldl (fun best c => if best.2.2 < c.2.2 then c else best) best = best := by
  intro l
  induction l with
  | nil => intro best _; rfl
  | cons c cs ih =>
    intro best h
    have hc : c.2.2 ≤ best.2.2 := h c (List.mem_cons_self _ _)
    simp only [List.foldl_cons, if_neg (by omega : ¬ best.2.2 < c.2.2)]
    exact ih best fun d hd => h d (List.mem_cons_of_mem _ hd)

lemma findLongestMatch_self {s : List Char} (hs : s ≠ []) :
    findLongestMatch s s = (0, 0, s.length) := by
  obtain ⟨x, xs, rfl⟩ : ∃ x xs, s = x :: xs := by
    cases s with
    | nil => exact absurd rfl hs
    | cons x xs => exact ⟨x, xs, rfl⟩
  have hh : (lcsCandidates (x :: xs) (x :: xs)).head? = some (0, 0, (x :: xs).length) := by
    unfold lcsCandidates
    rw [List.length_cons, List.range_succ_eq_map]
    simp [commonPrefixLen_self]
  obtain ⟨tail, htail⟩ : ∃ tail,
      lcsCandidates (x :: xs) (x :: xs) = (0, 0, (x :: xs).length) :: tail := by
    cases hl : lcsCandidates (x :: xs) (x :: xs) with
    | nil => rw [hl] at hh; simp at hh
    | cons c cs =>
      rw [hl, List.head?_cons, Option.some.injEq] at hh
      exact ⟨cs, by rw [hh]⟩
  unfold findLongestMatch
  rw [htail, List.foldl_cons]
  rw [if_pos (by simp)]
  refine foldl_best_keep tail (0, 0, (x :: xs).length) fun c hc => ?_
  exact lcsCandidates_k_le c (htail ▸ List.mem_cons_of_mem _ hc)

lemma matchingTotalF_nil : ∀ fuel, matchingTotalF fuel [] [] = 0 := by
  intro fuel
  cases fuel with
  | zero => rfl
  | succ n => simp [matchingTotalF, findLongestMatch, lcsCandidates]

lemma matchingTotal_self (s : List Char) : matchingTotal s s = s.length := by
  rcases eq_or_ne s [] with rfl | hs
  · rfl
  · have hn : 1 ≤ s.length := List.length_pos.mpr hs
    obtain ⟨m, hm⟩ : ∃ m, s.length + s.length = m + 1 := ⟨s.length + s.length - 1, by omega⟩
    unfold matchingTotal
    rw [hm, matchingTotalF, findLongestMatch_self hs]
    simp only
    rw [if_neg (by omega)]
    simp [matchingTotalF_nil, List.drop_length]

lemma ratioQ_self (s : List Char) : ratioQ s s = 1 := by
  unfold ratioQ
  rcases eq_or_ne s [] with rfl | hs
  · simp
  · have hn : 0 < s.length := List.length_pos.mpr hs
    have hq : (0 : ℚ) < (s.length : ℚ) := by exact_mod_cast hn
    rw [if_neg (by omega), matchingTotal_self]
    rw [div_eq_one_iff_eq (by linarith)]
    ring

lemma is_similar_fst_iff (posts : List BlogPost) (title : List Char) (thr : ℚ) :
    (is_similar_to_existing posts title thr).1 = true ↔
      ∃ p ∈ posts, thr ≤ ratioQ (lowerL title) (lowerL p.title) := by
  induction posts with
  | nil => simp [is_similar_to_existing]
  | cons p ps ih =>
    simp only [is_similar_to_existing]
    by_cases h : thr ≤ ratioQ (lowerL title) (lowerL p.title)
    · simp [h]
    · rw [if_neg h]
      rw [ih]
      constructor
      · rintro ⟨q, hq, hr⟩
        exact ⟨q, List.mem_cons_of_mem _ hq, hr⟩
      · rintro ⟨q, hq, hr⟩
        rcases List.mem_cons.mp hq with rfl | hq'
        · exact absurd hr h
        · exact ⟨q, hq', hr⟩

lemma is_similar_snd (posts : List BlogPost) (title : List Char) (thr : ℚ)
    (h : (is_similar_to_existing posts title thr).1 = true) :
    ∃ p ∈ posts, (is_similar_to_existing posts title thr).2 = some p ∧
      thr ≤ ratioQ (lowerL title) (lowerL p.title) := by
  induction posts with
  | nil => simp [is_similar_to_existing] at h
  | cons p ps ih =>
    simp only [is_similar_to_existing] at h ⊢
    by_cases hc : thr ≤ ratioQ (lowerL title) (lowerL p.title)
    · exact ⟨p, List.mem_cons_self _ _, by rw [if_pos hc], hc⟩
    · rw [if_neg hc] at h ⊢
      obtain ⟨q, hq, h2, h3⟩ := ih h
      exact ⟨q, List.mem_cons_of_mem _ hq, h2, h3⟩

/-- C5.  `is_similar_to_existing` at the default threshold reports true
exactly when some stored title has lower-cased similarity ratio
`≥ 0.75` with the candidate, and then returns a matching post; a
candidate equal to a stored title up to letter case is always reported
(the ratio of equal strings being 1). -/
theorem claim5_title_similarity :
    ∀ (posts : List BlogPost) (title : List Char),
      ((is_similar_to_existing posts title).1 = true ↔
        ∃ p ∈ posts, (3 / 4 : ℚ) ≤ ratioQ (lowerL title) (lowerL p.title)) ∧
      ((is_similar_to_existing posts title).1 = true →
        ∃ p ∈ posts, (is_similar_to_existing posts title).2 = some p ∧
          (3 / 4 : ℚ) ≤ ratioQ (lowerL title) (lowerL p.title)) ∧
      (∀ p ∈ posts, lowerL title = lowerL p.title →
        (is_similar_to_existing posts title).1 = true) ∧
      ∀ s : List Char, ratioQ s s = 1 := by
  intro posts title
  refine ⟨is_similar_fst_iff posts title _, is_similar_snd posts title _, ?_, ratioQ_self⟩
  intro p hp heq
  refine (is_similar_fst_iff posts title _).mpr ⟨p, hp, ?_⟩
  rw [heq, ratioQ_self]
  norm_num

/-- A stored post used by concrete scenarios. -/
def indexFundsPost : BlogPost :=
  { title := "How to Invest in Index Funds".toList
    slug := "how-to-invest-in-index-funds".toList
    content := []
    excerpt := []
    meta_description := []
    meta_keywords := []
    featured_image_url := none
    status := PostStatus.published
    published_at := some 0
    word_count := 0
    topic_id := none }

/-- Witness for C5: the case-only variant of a stored title is
reported as too similar. -/
theorem claim5_title_similarity_witness :
    (is_similar_to_existing [indexFundsPost] "How To Invest In Index Funds".toList).1 = true :=
  (claim5_title_similarity [indexFundsPost] _).2.2.1 indexFundsPost
    (List.mem_singleton.mpr rfl) (by decide)

lemma is_covered_fst_iff (posts : List BlogPost) (topic : List Char) (thr : ℚ) :
    (is_topic_covered posts topic thr).1 = true ↔
      ∃ p ∈ posts, thr ≤ ratioQ (lowerL topic) (lowerL p.title) ∨
        (3 / 5 : ℚ) ≤ word_overlap (lowerL topic) (lowerL p.title) := by
  induction posts with
  | nil => simp [is_topic_covered]
  | cons p ps ih =>
    simp only [is_topic_covered]
    by_cases h : thr ≤ ratioQ (lowerL topic) (lowerL p.title) ∨
        (3 / 5 : ℚ) ≤ word_overlap (lowerL topic) (lowerL p.title)
    · rw [if_pos (by simpa using h)]
      exact ⟨fun _ => ⟨p, List.mem_cons_self _ _, h⟩, fun _ => rfl⟩
    · rw [if_neg (by simpa using h)]
      rw [ih]
      constructor
      · rintro ⟨q, hq, hr⟩
        exact ⟨q, List.mem_cons_of_mem _ hq, hr⟩
      · rintro ⟨q, hq, hr⟩
        rcases List.mem_cons.mp hq with rfl | hq'
        · exact absurd hr h
        · exact ⟨q, hq', hr⟩

lemma is_covered_snd (posts : List BlogPost) (topic : List Char) (thr : ℚ)
    (h : (is_topic_covered posts topic thr).1 = true) :
    ∃ p ∈ posts, (is_topic_covered posts topic thr).2 = some p := by
  induction posts with
  | nil => simp [is_topic_covered] at h
  | cons p ps ih =>
    simp only [is_topic_covered] at h ⊢
    by_cases hc : (thr ≤ ratioQ (lowerL topic) (lowerL p.title) ∨
        (3 / 5 : ℚ) ≤ word_overlap (lowerL topic) (lowerL p.title))
    · exact ⟨p, List.mem_cons_self _ _, by rw [if_pos (by simpa using hc)]⟩
    · rw [if_neg (by simpa using hc)] at h ⊢
      obtain ⟨q, hq, h2⟩ := ih h
      exact ⟨q, List.mem_cons_of_mem _ hq, h2⟩

/-- C4.  `is_topic_covered` at the default threshold reports
(true, some post) exactly when some stored title reaches similarity
ratio `0.70` or word overlap `0.60` against the keyword, and on an
empty article set it reports (false, none). -/
theorem claim4_topic_coverage :
    ∀ (posts : List BlogPost) (topic : List Char),
      ((is_topic_covered posts topic).1 = true ↔
        ∃ p ∈ posts, (7 / 10 : ℚ) ≤ ratioQ (lowerL topic) (lowerL p.title) ∨
          (3 / 5 : ℚ) ≤ word_overlap (lowerL topic) (lowerL p.title)) ∧
      ((is_topic_covered posts topic).1 = true →
        ∃ p ∈ posts, (is_topic_covered posts topic).2 = some p) ∧
      is_topic_covered [] topic = (false, none) := by
  intro posts topic
  exact ⟨is_covered_fst_iff posts topic _, is_covered_snd posts topic _, rfl⟩

/-- Witness for C4: a keyword equal to a stored title up to case is
covered through the similarity-ratio disjunct, and the empty article
set covers nothing. -/
theorem claim4_topic_coverage_witness :
    (is_topic_covered [indexFundsPost] "how to invest in index funds".toList).1 = true ∧
      is_topic_covered [] "how to invest in index funds".toList = (false, none) :=
  ⟨(claim4_topic_coverage [indexFundsPost] _).1.mpr
      ⟨indexFundsPost, List.mem_singleton.mpr rfl, Or.inl (by
        rw [show lowerL "how to invest in index funds".toList = lowerL indexFundsPost.title from
          by decide]
        rw [ratioQ_self]
        norm_num)⟩,
    (claim4_topic_coverage [] _).2.2⟩

/-! ## Affiliate-injection lemmas (claim C9) -/

lemma injectGo_count_le (maxLinks : Nat) :
    ∀ (ls : List AffiliateLink) (content : List Char) (n : Nat), n ≤ maxLinks →
      (injectGo maxLinks ls content n).2 ≤ maxLinks := by
  intro ls
  induction ls with
  | nil => intro content n h; exact h
  | cons l rest ih =>
    intro content n h
    simp only [injectGo]
    by_cases hb : maxLinks ≤ n
    · rw [if_pos hb]; exact h
    · rw [if_neg hb]
      cases hm : kwFirstMatch l.keyword content with
      | none => exact ih content n h
      | some i => exact ih _ (n + 1) (by omega)

lemma injectGo_no_match (maxLinks : Nat) :
    ∀ (ls : List AffiliateLink) (content : List Char) (n : Nat),
      (∀ l ∈ ls, kwFirstMatch l.keyword content = none) →
      injectGo maxLinks ls content n = (content, n) := by
  intro ls
  induction ls with
  | nil => intro content n _; rfl
  | cons l rest ih =>
    intro content n h
    simp only [injectGo]
    by_cases hb : maxLinks ≤ n
    · rw [if_pos hb]
    · rw [if_neg hb, h l (List.mem_cons_self _ _)]
      exact ih content n fun q hq => h q (List.mem_cons_of_mem _ hq)

/-- C9.  `inject_affiliate_links` leaves the content unchanged when no
link is active or no active keyword matches, never performs more than
`max_links` injections, and for a single active link with a first
(case-insensitive, word-bounded) match at `i` it splices a markdown
link over exactly that occurrence, preserving the matched text. -/
theorem claim9_inject_affiliate_links :
    ∀ (links : List AffiliateLink) (content : List Char) (maxLinks : Nat),
      ((links.filter (·.active)).isEmpty = true →
        inject_affiliate_links links content maxLinks = content) ∧
      ((∀ l ∈ links.filter (·.active), kwFirstMatch l.keyword content = none) →
        inject_affiliate_links links content maxLinks = content) ∧
      (injectGo maxLinks (links.filter (·.active)) content 0).2 ≤ maxLinks ∧
      (∀ (l : AffiliateLink) (i : Nat), links.filter (·.active) = [l] →
        kwFirstMatch l.keyword content = some i → 1 ≤ maxLinks →
        inject_affiliate_links links content maxLinks =
          content.take i ++
            ('[' :: (content.drop i).take l.keyword.length ++ ']' :: '(' :: l.url ++ [')']) ++
            content.drop (i + l.keyword.length)) := by
  intro links content maxLinks
  refine ⟨?_, ?_, ?_, ?_⟩
  · intro h
    unfold inject_affiliate_links
    rw [if_pos h]
  · intro h
    unfold inject_affiliate_links
    by_cases he : (links.filter (·.active)).isEmpty = true
    · rw [if_pos he]
    · rw [if_neg he, injectGo_no_match _ _ _ _ h]
  · exact injectGo_count_le _ _ _ _ (Nat.zero_le _)
  · intro l i hf hm hmax
    unfold inject_affiliate_links
    rw [hf]
    rw [if_neg (by simp)]
    simp only [injectGo, hm]
    rw [if_neg (by omega)]

/-- An affiliate link used by concrete scenarios. -/
def sampleLink : AffiliateLink :=
  { keyword := "rust".toList, url := "https://example.com/rust".toList, active := true }

/-- Witness for C9: the first word-bounded, case-insensitive match of
`rust` in `I like Rust a lot` sits at index 7 and is rewritten into a
markdown link that preserves the capitalised text. -/
theorem claim9_inject_affiliate_links_witness :
    kwFirstMatch sampleLink.keyword "I like Rust a lot".toList = some 7 ∧
      inject_affiliate_links [sampleLink] "I like Rust a lot".toList 3 =
        "I like Rust a lot".toList.take 7 ++
          ('[' :: ("I like Rust a lot".toList.drop 7).take sampleLink.keyword.length ++
            ']' :: '(' :: sampleLink.url ++ [')']) ++
          "I like Rust a lot".toList.drop (7 + sampleLink.keyword.length) :=
  ⟨by decide,
    (claim9_inject_affiliate_links [sampleLink] _ 3).2.2.2 sampleLink 7 rfl (by decide)
      (by decide)⟩

/-! ## Field fallbacks (claim C10) -/

/-- C10.  Empty parsed fields receive their deterministic fallbacks in
order — generic templated title from the keyword, first 200 characters
of the content plus an ellipsis for the excerpt, first 160 characters
of the (possibly fallback) excerpt for the meta description — and the
word count is the whitespace-token count of the parsed content. -/
theorem claim10_parse_fallbacks :
    ∀ (s keyword : List Char),
      ((extractField "**TITLE:**".toList "TITLE:".toList s).getD [] = [] →
        (parse_blog_content s keyword).title = fallbackTitle keyword) ∧
      ((excerptField s).getD [] = [] →
        (parse_blog_content s keyword).excerpt =
          (parse_blog_content s keyword).content.take 200 ++ "...".toList) ∧
      ((extractField "**META_DESCRIPTION:**".toList "META_DESCRIPTION:".toList s).getD [] = [] →
        (parse_blog_content s keyword).meta_description =
          (parse_blog_content s keyword).excerpt.take 160) ∧
      (parse_blog_content s keyword).word_count =
        (splitWs (parse_blog_content s keyword).content).length := by
  intro s keyword
  refine ⟨?_, ?_, ?_, rfl⟩
  · intro h
    simp only [parse_blog_content, h]
    simp
  · intro h
    simp only [parse_blog_content, h]
    simp
  · intro h
    simp only [parse_blog_content, h]
    simp

/-- Witness for C10 at the empty response text: all extractions fail,
so the title, excerpt, meta description and word count are exactly the
fallback values. -/
theorem claim10_parse_fallbacks_witness :
    (extractField "**TITLE:**".toList "TITLE:".toList []).getD [] = [] ∧
      (parse_blog_content [] "ai trends".toList).title = fallbackTitle "ai trends".toList ∧
      (parse_blog_content [] "ai trends".toList).excerpt = "...".toList ∧
      (parse_blog_content [] "ai trends".toList).word_count = 0 := by
  refine ⟨by decide, (claim10_parse_fallbacks [] _).1 (by decide), ?_, ?_⟩
  · rw [(claim10_parse_fallbacks [] "ai trends".toList).2.1 (by decide)]
    decide
  · rw [(claim10_parse_fallbacks [] "ai trends".toList).2.2.2]
    decide

/-! ## Content-extraction strategies (claim C3) -/

lemma scanFirst_eq_none_iff (f : List Char → Option (List Char)) :
    ∀ s : List Char, scanFirst f s = none ↔ ∀ k, f (s.drop k) = none := by
  intro s
  induction s with
  | nil =>
    simp only [scanFirst, List.drop_nil]
    exact ⟨fun h _ => h, fun h => h 0⟩
  | cons c cs ih =>
    simp only [scanFirst]
    cases hf : f (c :: cs) with
    | some r =>
      simp only [reduceCtorEq, false_iff, not_forall]
      exact ⟨0, by simp [hf]⟩
    | none =>
      rw [ih]
      constructor
      · intro h k
        cases k with
        | zero => simpa using hf
        | succ m => simpa [List.drop_succ_cons] using h m
      · intro h k
        simpa [List.drop_succ_cons] using h (k + 1)

lemma dashSearch_drop_none {s : List Char} (h : dashSearch s = none) (m : Nat) :
    dashSearch (s.drop m) = none := by
  unfold dashSearch at h ⊢
  rw [scanFirst_eq_none_iff] at h ⊢
  intro k
  rw [List.drop_drop]
  exact h _

lemma afterExcerpt_eq_drop (e s : List Char) : ∃ m, afterExcerpt e s = s.drop m := by
  unfold afterExcerpt
  cases pyFind e s with
  | none => exact ⟨_, rfl⟩
  | some i => exact ⟨_, rfl⟩

/-- The response text of the C3 counterexample: an excerpt followed by
trailing prose, with no `CONTENT:` label and no `---` separator. -/
def tailWordsText : List Char := "EXCERPT: Baz\n\nTail words".toList

/-- Counterexample to C3 as stated.  On this text strategy 1 (the
`CONTENT:` label) and strategy 2 (a `---` separator) both fail and an
excerpt `Baz` was extracted; the text after the excerpt section is the
non-empty `Tail words`, yet the parsed content is empty — so the third
strategy is not "everything after the EXCERPT section". -/
theorem claim3_counterexample :
    contentLabelSearch tailWordsText = none ∧
      dashSearch tailWordsText = none ∧
      (parse_blog_content tailWordsText "kw".toList).excerpt = "Baz".toList ∧
      afterExcerpt "Baz".toList tailWordsText = "\n\nTail words".toList ∧
      pyStrip (afterExcerpt "Baz".toList tailWordsText) = "Tail words".toList ∧
      (parse_blog_content tailWordsText "kw".toList).content = [] := by
  decide

/-- C3 (amended).  The parser extracts content by trying, in order:
(1) everything from the `CONTENT` label to the end of the text;
(2) if no `CONTENT` label matches, everything after a `---` separator
line; (3) if that also fails and an excerpt was extracted, everything
after a `---` separator line within the text following the excerpt —
and since that repeated search scans a suffix of the already-searched
text, it can never succeed once strategy 2 has failed, so whenever
strategies 1 and 2 both fail the content field is empty and the word
count is 0. -/
theorem claim3_content_strategy_order :
    ∀ (s keyword : List Char),
      (∀ g, contentLabelSearch s = some g → (parse_blog_content s keyword).content = g) ∧
      (contentLabelSearch s = none → ∀ g, dashSearch s = some g →
        (parse_blog_content s keyword).content = g) ∧
      (contentLabelSearch s = none → dashSearch s = none →
        (parse_blog_content s keyword).content = [] ∧
        (parse_blog_content s keyword).word_count = 0) := by
  intro s keyword
  refine ⟨?_, ?_, ?_⟩
  · intro g hg
    simp only [parse_blog_content, contentField, hg]
  · intro h1 g hg
    simp only [parse_blog_content, contentField, h1, hg]
  · intro h1 h2
    have hcf : contentField ((excerptField s).getD []) s = [] := by
      unfold contentField
      rw [h1, h2]
      by_cases he : ((excerptField s).getD []).isEmpty
      · rw [if_pos he]
      · rw [if_neg he]
        obtain ⟨m, hm⟩ := afterExcerpt_eq_drop ((excerptField s).getD []) s
        rw [hm, dashSearch_drop_none h2 m]
    constructor
    · simp only [parse_blog_content]
      exact hcf
    · simp only [parse_blog_content, hcf]
      rfl

/-- Witness for C3 (amended): on the counterexample text both leading
strategies fail and the parsed content is empty with word count 0. -/
theorem claim3_content_strategy_order_witness :
    contentLabelSearch tailWordsText = none ∧ dashSearch tailWordsText = none ∧
      (parse_blog_content tailWordsText "kw".toList).content = [] ∧
      (parse_blog_content tailWordsText "kw".toList).word_count = 0 := by
  refine ⟨by decide, by decide, ?_⟩
  exact (claim3_content_strategy_order tailWordsText "kw".toList).2.2 (by decide) (by decide)

/-! ## Topic-saving lemmas (claim C6) -/

lemma find?_append_none {l l' : List TrendingTopic} {p : TrendingTopic → Bool}
    (h : l.find? p = none) : (l ++ l').find? p = l'.find? p := by
  induction l with
  | nil => rfl
  | cons x xs ih =>
    rw [List.find?_cons] at h
    cases hx : p x with
    | true => rw [hx] at h; simp at h
    | false =>
      rw [hx] at h
      rw [List.cons_append, List.find?_cons, hx]
      exact ih h

lemma save_tt_table :
    ∀ (batch : List TopicData) (topics : List TrendingTopic) (nid : Nat),
      (save_trending_topics topics nid batch).2.1 =
        topics ++ (save_trending_topics topics nid batch).1 := by
  intro batch
  induction batch with
  | nil => intro topics nid; simp [save_trending_topics]
  | cons td rest ih =>
    intro topics nid
    simp only [save_trending_topics]
    split
    · exact ih topics nid
    · simp only
      rw [ih (topics ++ [_]) (nid + 1)]
      simp [List.append_assoc]

lemma save_tt_saved_pending :
    ∀ (batch : List TopicData) (topics : List TrendingTopic) (nid : Nat),
      ∀ t ∈ (save_trending_topics topics nid batch).1,
        t.status = TopicStatus.pending ∧ t.processed_at = none := by
  intro batch
  induction batch with
  | nil => intro topics nid t ht; simp [save_trending_topics] at ht
  | cons td rest ih =>
    intro topics nid t ht
    simp only [save_trending_topics] at ht
    revert ht
    split
    · exact fun ht => ih topics nid t ht
    · intro ht
      rcases List.mem_cons.mp ht with rfl | ht'
      · exact ⟨rfl, rfl⟩
      · exact ih _ _ t ht'

lemma save_tt_single (topics : List TrendingTopic) (nid : Nat) (td : TopicData) :
    (save_trending_topics topics nid [td]).1 = [] ↔
      ∃ t, topics.find? (fun t => t.keyword = td.keyword) = some t ∧
        (t.status = TopicStatus.pending ∨ t.status = TopicStatus.in_progress) := by
  simp only [save_trending_topics]
  cases hf : topics.find? (fun t => t.keyword = td.keyword) with
  | none =>
    simp only [hf]
    constructor
    · intro h; simp at h
    · rintro ⟨t, ht, _⟩; simp at ht
  | some t =>
    simp only [hf]
    by_cases hs : t.status = TopicStatus.pending ∨ t.status = TopicStatus.in_progress
    · rw [if_pos (by simpa using hs)]
      exact ⟨fun _ => ⟨t, rfl, hs⟩, fun _ => rfl⟩
    · rw [if_neg (by simpa using hs)]
      constructor
      · intro h; simp at h
      · rintro ⟨t', ht', hs'⟩
        rw [Option.some.injEq] at ht'
        exact absurd (ht' ▸ hs') hs

lemma save_tt_dup (topics : List TrendingTopic) (nid : Nat) (td : TopicData)
    (h : ∀ t ∈ topics, t.keyword ≠ td.keyword) :
    (save_trending_topics topics nid [td, td]).1 =
      [{ id := nid, keyword := td.keyword, search_volume := td.search_volume,
         trend_score := td.trend_score, status := TopicStatus.pending,
         processed_at := none }] := by
  have hf : topics.find? (fun t => t.keyword = td.keyword) = none := by
    rw [List.find?_eq_none]
    intro t ht
    simpa using h t ht
  simp only [save_trending_topics, hf]
  rw [if_neg (by simp)]
  simp only
  rw [find?_append_none hf]
  rw [show List.find? (fun t => decide (t.keyword = td.keyword))
      [({ id := nid, keyword := td.keyword, search_volume := td.search_volume,
          trend_score := td.trend_score, status := TopicStatus.pending,
          processed_at := none } : TrendingTopic)] =
      some { id := nid, keyword := td.keyword, search_volume := td.search_volume,
             trend_score := td.trend_score, status := TopicStatus.pending,
             processed_at := none } from by simp [List.find?_cons]]
  rw [if_pos (by simp)]

/-- The stored table of the C6 counterexample: an old completed row
for keyword `k` inserted before a pending row for the same keyword. -/
def dupTopicsTable : List TrendingTopic :=
  [{ id := 0, keyword := "k".toList, search_volume := 0, trend_score := 0,
     status := TopicStatus.completed, processed_at := some 5 },
   { id := 1, keyword := "k".toList, search_volume := 0, trend_score := 0,
     status := TopicStatus.pending, processed_at := none }]

/-- The duplicate candidate of the C6 counterexample. -/
def dupTd : TopicData := { keyword := "k".toList, trend_score := 0, search_volume := 0 }

/-- Counterexample to C6 as stated.  A pending row for `k` exists, yet
saving a new `k` candidate inserts instead of skipping — the lookup
consults only the first row with that keyword, which is completed —
and the table afterwards holds two pending rows for `k`, violating the
claimed at-most-one-pending invariant. -/
theorem claim6_counterexample :
    (∃ t ∈ dupTopicsTable, t.keyword = "k".toList ∧ t.status = TopicStatus.pending) ∧
      (save_trending_topics dupTopicsTable 2 [dupTd]).1 ≠ [] ∧
      ((save_trending_topics dupTopicsTable 2 [dupTd]).2.1.filter
        (fun t => decide (t.keyword = "k".toList ∧ t.status = TopicStatus.pending))).length
        = 2 := by
  decide

/-- C6 (amended).  `save_trending_topics` appends exactly the returned
rows to the table, inserts every new row as pending, skips a candidate
exactly when the first stored row with its keyword is pending or
in\_progress, and — when no stored row carries the keyword — a batch
containing the same keyword twice persists exactly one pending row
(the session's autoflush makes the first insertion visible to the
second lookup). -/
theorem claim6_save_trending_topics :
    ∀ (topics : List TrendingTopic) (nid : Nat) (batch : List TopicData),
      ((save_trending_topics topics nid batch).2.1 =
        topics ++ (save_trending_topics topics nid batch).1) ∧
      (∀ t ∈ (save_trending_topics topics nid batch).1,
        t.status = TopicStatus.pending ∧ t.processed_at = none) ∧
      (∀ td : TopicData, (save_trending_topics topics nid [td]).1 = [] ↔
        ∃ t, topics.find? (fun t => t.keyword = td.keyword) = some t ∧
          (t.status = TopicStatus.pending ∨ t.status = TopicStatus.in_progress)) ∧
      (∀ td : TopicData, (∀ t ∈ topics, t.keyword ≠ td.keyword) →
        (save_trending_topics topics nid [td, td]).1 =
          [{ id := nid, keyword := td.keyword, search_volume := td.search_volume,
             trend_score := td.trend_score, status := TopicStatus.pending,
             processed_at := none }]) :=
  fun topics nid batch =>
    ⟨save_tt_table batch topics nid, save_tt_saved_pending batch topics nid,
      save_tt_single topics nid, save_tt_dup topics nid⟩

/-- Witness for C6 (amended): on an empty table, the duplicate batch
for `ai trends` persists exactly one pending row. -/
theorem claim6_save_trending_topics_witness :
    (save_trending_topics [] 0 [dupTd, dupTd]).1 =
      [{ id := 0, keyword := "k".toList, search_volume := 0, trend_score := 0,
         status := TopicStatus.pending, processed_at := none }] :=
  (claim6_save_trending_topics [] 0 []).2.2.2 dupTd (by simp)

/-! ## Slug collision on persistence (claim C8) -/

/-- A stored post whose slug is `my-topic`. -/
def slugPostA : BlogPost :=
  { title := "t".toList, slug := "my-topic".toList, content := [], excerpt := [],
    meta_description := [], meta_keywords := [], featured_image_url := none,
    status := PostStatus.published, published_at := some 0, word_count := 0,
    topic_id := none }

/-- A stored post whose slug is `my-topic-99`. -/
def slugPostB : BlogPost := { slugPostA with slug := "my-topic-99".toList }

/-- A draft whose title derives the slug `my-topic`. -/
def myTopicDraft : BlogData :=
  { keyword := [], title := "My Topic".toList, content := [], meta_description := [],
    meta_keywords := [], excerpt := [], word_count := 0, featured_image_url := none }

/-- Counterexample to C8 as stated.  The draft's slug `my-topic` is
already stored and the clock reads 99, so the suffixed slug
`my-topic-99` is also stored: the unique constraint makes the commit
fail, `save_blog_post` returns none and no second article exists — the
collision is surfaced as an error rather than resolved. -/
theorem claim8_counterexample :
    create_slug myTopicDraft.title = "my-topic".toList ∧
      (∃ p ∈ [slugPostA, slugPostB], p.slug = create_slug myTopicDraft.title) ∧
      (save_blog_post [slugPostA, slugPostB] myTopicDraft none PostStatus.published 99).1
        = none ∧
      (save_blog_post [slugPostA, slugPostB] myTopicDraft none PostStatus.published 99).2
        = [slugPostA, slugPostB] := by
  decide

/-- C8 (amended).  When the derived slug equals a stored slug,
`save_blog_post` appends a hyphen and the current Unix timestamp; if
the suffixed slug is itself not stored both articles exist with
distinct slugs, while if the suffixed slug is also stored the commit
fails, none is returned and the table is unchanged; in every case the
slug column's global uniqueness is preserved. -/
theorem claim8_slug_collision :
    ∀ (posts : List BlogPost) (bd : BlogData) (tid : Option Nat) (status : PostStatus)
      (now : Nat),
      (posts.any (fun p => p.slug = create_slug bd.title) = true →
        (posts.any
            (fun p => p.slug = create_slug bd.title ++ '-' :: (Nat.repr now).toList) = false →
          ∃ post, save_blog_post posts bd tid status now = (some post, posts ++ [post]) ∧
            post.slug = create_slug bd.title ++ '-' :: (Nat.repr now).toList ∧
            post.title = bd.title) ∧
        (posts.any
            (fun p => p.slug = create_slug bd.title ++ '-' :: (Nat.repr now).toList) = true →
          save_blog_post posts bd tid status now = (none, posts))) ∧
      ((posts.map (fun p => p.slug)).Nodup →
        ((save_blog_post posts bd tid status now).2.map (fun p => p.slug)).Nodup) := by
  have hins : ∀ (posts : List BlogPost) (post : BlogPost),
      (posts.map (fun p => p.slug)).Nodup →
      posts.any (fun p => p.slug = post.slug) = false →
      ((posts ++ [post]).map (fun p => p.slug)).Nodup := by
    intro posts post hnd hc
    simp only [List.map_append, List.map_cons, List.map_nil]
    rw [List.nodup_append]
    refine ⟨hnd, List.nodup_singleton _, ?_⟩
    intro x hx hx'
    rw [List.mem_singleton] at hx'
    subst hx'
    obtain ⟨p, hp, hps⟩ := List.mem_map.mp hx
    rw [List.any_eq_false] at hc
    exact hc p hp (by simpa using hps)
  intro posts bd tid status now
  constructor
  · intro h1
    constructor
    · intro h2
      refine ⟨{ title := bd.title,
                slug := create_slug bd.title ++ '-' :: (Nat.repr now).toList,
                content := bd.content, excerpt := bd.excerpt,
                meta_description := bd.meta_description, meta_keywords := bd.meta_keywords,
                featured_image_url := bd.featured_image_url, status := status,
                published_at := if status = PostStatus.published then some now else none,
                word_count := bd.word_count, topic_id := tid }, ?_, rfl, rfl⟩
      simp only [save_blog_post]
      rw [if_pos h1, if_neg (by simpa using h2)]
    · intro h2
      simp only [save_blog_post]
      rw [if_pos h1, if_pos h2]
  · intro hnd
    simp only [save_blog_post]
    by_cases h1 : (posts.any fun p => p.slug = create_slug bd.title) = true
    · rw [if_pos h1]
      by_cases hc : (posts.any fun p =>
          p.slug = create_slug bd.title ++ '-' :: (Nat.repr now).toList) = true
      · rw [if_pos hc]
        exact hnd
      · rw [if_neg hc]
        exact hins posts _ hnd (by simpa using hc)
    · rw [if_neg h1]
      by_cases hc : (posts.any fun p => p.slug = create_slug bd.title) = true
      · exact absurd hc h1
      · rw [if_neg hc]
        exact hins posts _ hnd (by simpa using hc)








/-- Witness for C8 (amended): with only `my-topic` stored and the
clock at 7, the colliding draft is persisted under `my-topic-7`. -/
theorem claim8_slug_collision_witness :
    (save_blog_post [slugPostA] myTopicDraft none PostStatus.published 7).1.map
        (fun p => p.slug) = some "my-topic-7".toList := by
  obtain ⟨post, heq, hslug, -⟩ :=
    ((claim8_slug_collision [slugPostA] myTopicDraft none PostStatus.published 7).1
      (by decide)).1 (by decide)
  rw [heq]
  simp only [Option.map_some']
  rw [hslug]
  decide

/-! ## Pipeline lemmas (claim C1) -/

/-- No topic of the table is stuck in the in\_progress state. -/
def NoInProgress (ts : List TrendingTopic) : Prop :=
  ∀ t ∈ ts, t.status ≠ TopicStatus.in_progress

lemma pickMaxScore_mem : ∀ {l : List TrendingTopic} {t : TrendingTopic},
    pickMaxScore l = some t → t ∈ l := by
  intro l
  induction l with
  | nil => intro t h; simp [pickMaxScore] at h
  | cons x xs ih =>
    intro t h
    rw [pickMaxScore] at h
    cases hp : pickMaxScore xs with
    | none =>
      rw [hp] at h
      simp only [Option.some.injEq] at h
      exact h ▸ List.mem_cons_self _ _
    | some b =>
      rw [hp] at h
      simp only at h
      split at h
      · rw [Option.some.injEq] at h
        exact List.mem_cons_of_mem _ (h ▸ ih hp)
      · rw [Option.some.injEq] at h
        exact h ▸ List.mem_cons_self _ _

lemma next_pending_spec {ts : List TrendingTopic} {t : TrendingTopic}
    (h : get_next_pending_topic ts = some t) :
    t ∈ ts ∧ t.status = TopicStatus.pending := by
  unfold get_next_pending_topic at h
  have hm := pickMaxScore_mem h
  exact ⟨(List.mem_filter.mp hm).1, by simpa using (List.mem_filter.mp hm).2⟩

lemma mark_processed_nip {ts : List TrendingTopic} {tid : Nat} {status : TopicStatus}
    {now : Nat} (hs : status ≠ TopicStatus.in_progress)
    (h : ∀ t ∈ ts, t.status = TopicStatus.in_progress → t.id = tid) :
    NoInProgress (mark_topic_processed ts tid status now) := by
  intro t' ht'
  unfold mark_topic_processed at ht'
  obtain ⟨t, ht, rfl⟩ := List.mem_map.mp ht'
  by_cases hid : t.id = tid
  · rw [if_pos hid]
    simpa using hs
  · rw [if_neg hid]
    intro hcon
    exact hid (h t ht hcon)

lemma mark_in_progress_cond {ts : List TrendingTopic} {tid : Nat} (h : NoInProgress ts) :
    ∀ t ∈ mark_in_progress ts tid, t.status = TopicStatus.in_progress → t.id = tid := by
  intro t' ht' hcon
  unfold mark_in_progress at ht'
  obtain ⟨t, ht, rfl⟩ := List.mem_map.mp ht'
  by_cases hid : t.id = tid
  · rw [if_pos hid]
    simpa using hid
  · rw [if_neg hid] at hcon
    exact absurd hcon (h t ht)

lemma save_blog_post_some {posts : List BlogPost} {bd : BlogData} {tid : Option Nat}
    {status : PostStatus} {now : Nat} {p : BlogPost}
    (h : (save_blog_post posts bd tid status now).1 = some p) : p.status = status := by
  simp only [save_blog_post] at h
  split at h <;> split at h <;> simp at h
  all_goals (subst h; rfl)

lemma nip_of_append {ts₁ ts₂ : List TrendingTopic} (h₁ : NoInProgress ts₁)
    (h₂ : ∀ t ∈ ts₂, t.status = TopicStatus.pending) : NoInProgress (ts₁ ++ ts₂) := by
  intro t ht
  rcases List.mem_append.mp ht with h | h
  · exact h₁ t h
  · rw [h₂ t h]
    simp

lemma runLoop_spec (env : RunEnv) (count maxA : Nat) :
    ∀ (n : Nat) (st : DBState) (posts : List BlogPost) (attempts : Nat),
      maxA - attempts ≤ n → posts.length ≤ count → attempts ≤ maxA →
      (∀ p ∈ posts, p.status = PostStatus.published) →
      (runLoop env count maxA st posts attempts).1.length ≤ count ∧
        ((runLoop env count maxA st posts attempts).1.length = count ∨
          (runLoop env count maxA st posts attempts).2.2 = maxA ∨
          get_next_pending_topic (runLoop env count maxA st posts attempts).2.1.topics
            = none) ∧
        (NoInProgress st.topics →
          NoInProgress (runLoop env count maxA st posts attempts).2.1.topics) ∧
        ∀ p ∈ (runLoop env count maxA st posts attempts).1,
          p.status = PostStatus.published := by
  intro n
  induction n with
  | zero =>
    intro st posts attempts hn hlen hatt hpub
    have hstop : ¬(posts.length < count ∧ attempts < maxA) := by omega
    rw [runLoop.eq_def, dif_neg hstop]
    exact ⟨hlen, Or.inr (Or.inl (show attempts = maxA by omega)), fun h => h, hpub⟩
  | succ n ih =>
    intro st posts attempts hn hlen hatt hpub
    by_cases hguard : posts.length < count ∧ attempts < maxA
    · rw [runLoop.eq_def, dif_pos hguard]
      cases hnext : get_next_pending_topic st.topics with
      | none =>
        exact ⟨hlen, Or.inr (Or.inr hnext), fun h => h, hpub⟩
      | some topic =>
        simp only
        by_cases hcov : (is_topic_covered st.posts topic.keyword).1 = true
        · rw [if_pos hcov]
          have h := ih
            { st with topics := mark_topic_processed st.topics topic.id TopicStatus.skipped (env.now attempts) }
            posts (attempts + 1) (by omega) hlen (by omega) hpub
          refine ⟨h.1, h.2.1, ?_, h.2.2.2⟩
          intro hP
          exact h.2.2.1 (mark_processed_nip (by simp) (fun t ht hcon => absurd hcon (hP t ht)))
        · rw [if_neg hcov]
          cases hgen : generate_blog_post (env.llm attempts) (env.img attempts) topic.keyword with
          | none =>
            simp only
            have h := ih
              { st with topics := mark_topic_processed (mark_in_progress st.topics topic.id) topic.id TopicStatus.skipped (env.now attempts) }
              posts (attempts + 1) (by omega) hlen (by omega) hpub
            refine ⟨h.1, h.2.1, ?_, h.2.2.2⟩
            intro hP
            exact h.2.2.1 (mark_processed_nip (by simp) (mark_in_progress_cond hP))
          | some bd =>
            simp only
            by_cases hsim : (is_similar_to_existing st.posts bd.title).1 = true
            · rw [if_pos hsim]
              have h := ih
                { st with topics := mark_topic_processed (mark_in_progress st.topics topic.id) topic.id TopicStatus.skipped (env.now attempts) }
                posts (attempts + 1) (by omega) hlen (by omega) hpub
              refine ⟨h.1, h.2.1, ?_, h.2.2.2⟩
              intro hP
              exact h.2.2.1 (mark_processed_nip (by simp) (mark_in_progress_cond hP))
            · rw [if_neg hsim]
              cases hsave : save_blog_post st.posts
                  { bd with content := inject_affiliate_links st.links bd.content 3 }
                  (some topic.id) PostStatus.published (env.now attempts) with
              | mk ro rposts =>
                cases ro with
                | some post =>
                  simp only
                  have hps : post.status = PostStatus.published :=
                    save_blog_post_some (p := post) (by rw [hsave])
                  have hpub2 : ∀ p ∈ posts ++ [post], p.status = PostStatus.published := by
                    intro p hp
                    rcases List.mem_append.mp hp with hq | hq
                    · exact hpub p hq
                    · rw [List.mem_singleton.mp hq]
                      exact hps
                  have h := ih
                    { st with posts := rposts, topics := mark_topic_processed (mark_in_progress st.topics topic.id) topic.id TopicStatus.completed (env.now attempts) }
                    (posts ++ [post]) (attempts + 1) (by omega)
                    (by simp only [List.length_append, List.length_singleton]; omega)
                    (by omega) hpub2
                  refine ⟨h.1, h.2.1, ?_, h.2.2.2⟩
                  intro hP
                  exact h.2.2.1 (mark_processed_nip (by simp) (mark_in_progress_cond hP))
                | none =>
                  simp only
                  have h := ih
                    { st with topics := mark_topic_processed (mark_in_progress st.topics topic.id) topic.id TopicStatus.skipped (env.now attempts) }
                    posts (attempts + 1) (by omega) hlen (by omega) hpub
                  refine ⟨h.1, h.2.1, ?_, h.2.2.2⟩
                  intro hP
                  exact h.2.2.1 (mark_processed_nip (by simp) (mark_in_progress_cond hP))
    · rw [runLoop.eq_def, dif_neg hguard]
      refine ⟨hlen, ?_, fun h => h, hpub⟩
      rcases Nat.lt_or_ge posts.length count with hl | hl
      · have hge : ¬ attempts < maxA := fun hb => hguard ⟨hl, hb⟩
        exact Or.inr (Or.inl (show attempts = maxA by omega))
      · exact Or.inl (show posts.length = count by omega)

lemma generate_single_state (env : RunEnv) (idx : Nat) (st : DBState) (kw : List Char) :
    (generate_single_blog env idx st kw).2.topics = st.topics ∧
      ∀ p, (generate_single_blog env idx st kw).1 = some p →
        p.status = PostStatus.published := by
  unfold generate_single_blog
  by_cases hcov : (is_topic_covered st.posts kw).1 = true
  · rw [if_pos hcov]
    exact ⟨rfl, fun p hp => by simp at hp⟩
  · rw [if_neg hcov]
    cases hgen : generate_blog_post (env.llm idx) (env.img idx) kw with
    | none => exact ⟨rfl, fun p hp => by simp at hp⟩
    | some bd =>
      simp only
      by_cases hsim : (is_similar_to_existing st.posts bd.title).1 = true
      · rw [if_pos hsim]
        exact ⟨rfl, fun p hp => by simp at hp⟩
      · rw [if_neg hsim]
        cases hsave : save_blog_post st.posts
            { bd with content := inject_affiliate_links st.links bd.content 3 }
            none PostStatus.published (env.now idx) with
        | mk ro rposts =>
          cases ro with
          | some post =>
            refine ⟨rfl, fun p hp => ?_⟩
            rw [Option.some.injEq] at hp
            exact hp ▸ save_blog_post_some (p := post) (by rw [hsave])
          | none => exact ⟨rfl, fun p hp => by simp at hp⟩

lemma customLoop_spec (env : RunEnv) :
    ∀ (kws : List (List Char)) (st : DBState) (idx : Nat),
      (customLoop env st idx kws).1.length ≤ kws.length ∧
        (customLoop env st idx kws).2.topics = st.topics ∧
        ∀ p ∈ (customLoop env st idx kws).1, p.status = PostStatus.published := by
  intro kws
  induction kws with
  | nil =>
    intro st idx
    exact ⟨by simp [customLoop], rfl, by simp [customLoop]⟩
  | cons kw rest ih =>
    intro st idx
    simp only [customLoop]
    have hgs := generate_single_state env idx st kw
    cases hg : generate_single_blog env idx st kw with
    | mk ro st2 =>
      rw [hg] at hgs
      cases ro with
      | some post =>
        simp only
        have h := ih st2 (idx + 1)
        refine ⟨?_, ?_, ?_⟩
        · simp only [List.length_cons]
          have := h.1
          omega
        · rw [h.2.1]
          exact hgs.1
        · intro p hp
          rcases List.mem_cons.mp hp with rfl | hp'
          · exact hgs.2 p rfl
          · exact h.2.2 p hp'
      | none =>
        simp only
        have h := ih st2 (idx + 1)
        refine ⟨by have := h.1; simp only [List.length_cons]; omega, ?_, h.2.2⟩
        rw [h.2.1]
        exact hgs.1

/-- The store after step 2 of the daily run: the fetched candidates
saved into the topics table. -/
def savedState (st : DBState) (fetched : List TopicData) : DBState :=
  { st with
    topics := (save_trending_topics st.topics st.nextId fetched).2.1
    nextId := (save_trending_topics st.topics st.nextId fetched).2.2 }

/-- C1.  The daily run is a total function (it terminates on every
oracle behaviour and store — no exception crosses its boundary in this
total model); it returns at most `count` articles, all published; it
never leaves a topic in\_progress when none was in\_progress before;
and on the trend path it equals the generation loop over the saved
pool, which stops exactly at the requested count, at the attempt
budget `len(fetched)`, or when no pending topic remains. -/
theorem claim1_run_daily_blog_generation :
    ∀ (env : RunEnv) (count : Nat) (fetched : List TopicData) (st : DBState),
      (run_daily_blog_generation env count fetched st).1.length ≤ count ∧
        (∀ p ∈ (run_daily_blog_generation env count fetched st).1,
          p.status = PostStatus.published) ∧
        (NoInProgress st.topics →
          NoInProgress (run_daily_blog_generation env count fetched st).2.topics) ∧
        (fetched.isEmpty = false →
          run_daily_blog_generation env count fetched st =
            ((runLoop env count fetched.length (savedState st fetched) [] 0).1,
              (runLoop env count fetched.length (savedState st fetched) [] 0).2.1) ∧
            ((runLoop env count fetched.length (savedState st fetched) [] 0).1.length
                = count ∨
              (runLoop env count fetched.length (savedState st fetched) [] 0).2.2
                = fetched.length ∨
              get_next_pending_topic
                (runLoop env count fetched.length (savedState st fetched) [] 0).2.1.topics
                = none)) := by
  intro env count fetched st
  by_cases hemp : fetched.isEmpty = true
  · have hrw : run_daily_blog_generation env count fetched st =
        generate_from_custom_topics env count st := by
      simp only [run_daily_blog_generation, if_pos hemp]
    rw [hrw]
    refine ⟨?_, ?_, ?_, fun hf => absurd hemp (by simp [hf])⟩ <;>
      unfold generate_from_custom_topics
    · by_cases hft : env.fileTopics.isEmpty = true
      · rw [if_pos hft]
        simp
      · rw [if_neg hft]
        have h := (customLoop_spec env
          ((env.shuffle env.fileTopics).take (min count env.fileTopics.length)) st 0).1
        have hsel : ((env.shuffle env.fileTopics).take
            (min count env.fileTopics.length)).length ≤ count :=
          le_trans (List.length_take_le _ _) (Nat.min_le_left _ _)
        show (customLoop env st 0
          ((env.shuffle env.fileTopics).take (min count env.fileTopics.length))).1.length ≤ count
        omega
    · by_cases hft : env.fileTopics.isEmpty = true
      · rw [if_pos hft]
        simp
      · rw [if_neg hft]
        exact (customLoop_spec env
          ((env.shuffle env.fileTopics).take (min count env.fileTopics.length)) st 0).2.2
    · by_cases hft : env.fileTopics.isEmpty = true
      · rw [if_pos hft]
        exact fun h => h
      · rw [if_neg hft]
        intro hP
        rw [(customLoop_spec env
          ((env.shuffle env.fileTopics).take (min count env.fileTopics.length)) st 0).2.1]
        exact hP
  · have hemp' : fetched.isEmpty = false := by simpa using hemp
    have hrw : run_daily_blog_generation env count fetched st =
        ((runLoop env count fetched.length (savedState st fetched) [] 0).1,
          (runLoop env count fetched.length (savedState st fetched) [] 0).2.1) := by
      simp only [run_daily_blog_generation, hemp']
      rfl
    have hspec := runLoop_spec env count fetched.length fetched.length
      (savedState st fetched) [] 0 (by omega) (by simp) (by omega) (by simp)
    refine ⟨?_, ?_, ?_, fun _ => ⟨hrw, hspec.2.1⟩⟩
    · rw [hrw]
      exact hspec.1
    · rw [hrw]
      exact hspec.2.2.2
    · intro hP
      rw [hrw]
      have hnip : NoInProgress (savedState st fetched).topics := by
        show NoInProgress (save_trending_topics st.topics st.nextId fetched).2.1
        rw [save_tt_table]
        exact nip_of_append hP (fun t ht => (save_tt_saved_pending fetched st.topics st.nextId t ht).1)
      exact hspec.2.2.1 hnip

/-- Oracles for the C1 witness: the completion call always fails, the
custom-topics file is empty. -/
def witnessEnv : RunEnv :=
  { llm := fun _ => none, img := fun _ => none, now := fun _ => 0,
    fileTopics := [], shuffle := id }

/-- An empty store for the C1 witness. -/
def witnessSt : DBState := { topics := [], posts := [], links := [], nextId := 0 }

/-- Witness for C1: a run over one fetched candidate with a failing
generator returns at most one post and leaves no topic in\_progress. -/
theorem claim1_run_daily_blog_generation_witness :
    (run_daily_blog_generation witnessEnv 1 [dupTd] witnessSt).1.length ≤ 1 ∧
      NoInProgress (run_daily_blog_generation witnessEnv 1 [dupTd] witnessSt).2.topics :=
  ⟨(claim1_run_daily_blog_generation witnessEnv 1 [dupTd] witnessSt).1,
    (claim1_run_daily_blog_generation witnessEnv 1 [dupTd] witnessSt).2.2.1
      (fun t ht => absurd ht (List.not_mem_nil t))⟩

end BlogWire


